import Mathlib

/-!
Verification of the portcheck TCP reachability prober
(helper-scripts/portcheck/main.go) against its design specification.

The pure parts of the program (port-token parsing and endpoint expansion)
are embedded as executable Lean functions; the bounded concurrent prober is
embedded as a per-attempt event trace plus a transition system for the
buffered-channel semaphore that gates submission.
-/

namespace Portcheck

/-- Numeric value of a big-endian list of decimal digit characters,
accumulated the way a left-to-right parser does. -/
def digitsVal (cs : List Char) : Nat :=
  cs.foldl (fun acc c => acc * 10 + (c.toNat - 48)) 0

/-- Decimal-digit run parser: succeeds on a non-empty all-digit string. -/
def parseDigits (cs : List Char) : Option Nat :=
  if cs ≠ [] ∧ cs.all Char.isDigit then some (digitsVal cs) else none

/-- Model of strconv.Atoi (equivalently ParseInt base 10, 64-bit):
an optional single leading sign followed by one or more decimal digits;
values that overflow a signed 64-bit integer are errors. -/
def atoi (s : String) : Option Int :=
  match s.data with
  | [] => none
  | c :: rest =>
    if c = '+' then
      (parseDigits rest).bind fun n =>
        if n ≤ 2 ^ 63 - 1 then some (n : Int) else none
    else if c = '-' then
      (parseDigits rest).bind fun n =>
        if n ≤ 2 ^ 63 then some (-(n : Int)) else none
    else
      (parseDigits (c :: rest)).bind fun n =>
        if n ≤ 2 ^ 63 - 1 then some (n : Int) else none

/-- Fuel-driven big-endian decimal digit emitter (the fuel only bounds the
number of digits, any fuel above the digit count gives the same result). -/
def toDigitsAux : Nat → Nat → List Char → List Char
  | 0, _, acc => acc
  | fuel + 1, n, acc =>
    if n < 10 then Char.ofNat (48 + n % 10) :: acc
    else toDigitsAux fuel (n / 10) (Char.ofNat (48 + n % 10) :: acc)

/-- Model of strconv.FormatInt(v, 10) for the nonnegative values the
program passes to it. -/
def formatNat (n : Nat) : String :=
  ⟨toDigitsAux (n + 1) n []⟩

/-- Recursive specification of the decimal digits of a number, used to
reason about formatNat. -/
def toDigitsSpec (n : Nat) : List Char :=
  if n < 10 then [Char.ofNat (48 + n)]
  else toDigitsSpec (n / 10) ++ [Char.ofNat (48 + n % 10)]
decreasing_by exact Nat.div_lt_self (by omega) (by omega)

/-- Model of strings.Split / strings.SplitSeq with a single-character
separator, on the character list of the string. -/
def splitOnChar (sep : Char) : List Char → List (List Char)
  | [] => [[]]
  | c :: rest =>
    match splitOnChar sep rest with
    | [] => [[c]]
    | t :: ts => if c = sep then [] :: t :: ts else (c :: t) :: ts

/-- Model of strings.Split(s, sep) for a one-character separator. -/
def split (sep : Char) (s : String) : List String :=
  (splitOnChar sep s.data).map fun l => ⟨l⟩

/-- The portRangeEnd constant of main.go. -/
def portRangeEnd : Nat := 65535

/-- Model of getPorts (main.go lines 24-45).  nil is modelled as none and a
non-nil (possibly empty) slice as some.  Note that the guard after parsing
the second bound re-checks start, exactly as the source does on line 37;
the loop body emits strconv.FormatInt of each value from start to end. -/
def getPorts (r : String) : Option (List String) :=
  match atoi (split '-' r).headI with
  | none => none
  | some start =>
    if start > (portRangeEnd : Int) ∨ start < 1 then none
    else if (split '-' r).length = 1 then some [(split '-' r).headI]
    else if (split '-' r).length > 2 then none
    else
      match atoi ((split '-' r).getD 1 "") with
      | none => none
      | some e =>
        if start > (portRangeEnd : Int) ∨ start < 1 then none
        else some ((List.range' start.toNat (e - start + 1).toNat).map formatNat)

/-- Model of net.JoinHostPort: hosts containing a colon are bracketed. -/
def joinHostPort (host port : String) : String :=
  if host.data.contains ':' then "[" ++ host ++ "]:" ++ port
  else host ++ ":" ++ port

/-- The usage message passed to log.Fatal in getAddresses. -/
def usageMsg : String :=
  "Not enough arguments. Usage: portcheck HOST [port|port-range|port1,port2,...]"

/-- Model of getAddresses (main.go lines 47-78).  The process-terminating
log.Fatal call is modelled as Except.error.  With exactly one argument the
source iterates i over range portRangeEnd (0 to 65534) skipping 0; with a
port specification it splits on commas and keeps the expansion of every
token whose getPorts result is non-nil. -/
def getAddresses (args : List String) : Except String (List String) :=
  if args.length < 2 then Except.error usageMsg
  else
    let host := args.getD 1 ""
    let full : List String :=
      if args.length = 2 then
        ((List.range portRangeEnd).filter fun i => i ≠ 0).map fun i =>
          joinHostPort host (formatNat i)
      else []
    let fromSpec : List String :=
      if args.length > 2 then
        (split ',' (args.getD 2 "")).flatMap fun tok =>
          match getPorts tok with
          | none => []
          | some r => r.map fun j => joinHostPort host j
      else []
    Except.ok (full ++ fromSpec)

/-- Observable actions of one prober goroutine. -/
inductive Event where
  | dial (address : String)
  | stdoutLine (s : String)
  | stderrLine (s : String)
  | closeConn
  | release
deriving DecidableEq

/-- Event trace of one attempt goroutine (main.go lines 86-95): the dial
runs first; the deferred channel receive registered right after it runs
when the goroutine returns, so it is the final event; in between, a
successful dial prints the SUCCESS line to stdout, closes the connection,
and reports a close error, if any, to stderr. -/
def attemptEvents (address : String) (dialOk : Bool) (closeErr : Option String) : List Event :=
  Event.dial address ::
    ((if dialOk then
        Event.stdoutLine ("SUCCESS: " ++ address) ::
          Event.closeConn ::
            (match closeErr with
             | some e => [Event.stderrLine ("error closing connection: " ++ e)]
             | none => [])
      else []) ++ [Event.release])

/-- Lines written to the standard output stream in a trace. -/
def stdoutOf (es : List Event) : List String :=
  es.filterMap fun e =>
    match e with
    | Event.stdoutLine s => some s
    | _ => none

/-- Lines written to the standard error stream in a trace. -/
def stderrOf (es : List Event) : List String :=
  es.filterMap fun e =>
    match e with
    | Event.stderrLine s => some s
    | _ => none

/-- Whether an event is an output side effect. -/
def isOutput : Event → Bool
  | Event.stdoutLine _ => true
  | Event.stderrLine _ => true
  | _ => false

/-- Whether an event is the release of the concurrency slot. -/
def isRelease : Event → Bool
  | Event.release => true
  | _ => false

/-- The ordering property asserted by the spec for one attempt: the slot
release occurs strictly before the first output side effect of the trace
(vacuously true for traces with no output). -/
def releasedBeforeAnyOutput (es : List Event) : Bool :=
  (es.takeWhile fun e => !isOutput e).any isRelease

/-- Concatenated traces of a full run, one attempt per address, with the
dial outcome and close-error outcome of each address given by oracles. -/
def runEvents (addrs : List String) (dialOk : String → Bool)
    (closeErr : String → Option String) : List Event :=
  addrs.flatMap fun a => attemptEvents a (dialOk a) (closeErr a)

/-- Model of main: expand the addresses, then run every attempt; the fatal
usage error short-circuits before any expansion or probing. -/
def runMain (args : List String) (dialOk : String → Bool)
    (closeErr : String → Option String) : Except String (List Event) :=
  (getAddresses args).map fun addrs => runEvents addrs dialOk closeErr

/-- Scheduler state of the prober: how many attempts are in each phase.
queued attempts have not yet been admitted by the buffered channel;
acquired ones hold a slot but have not started dialing; dialing ones are
inside net.DialTimeout; dialed ones have completed the dial (and do their
reporting) but have not yet run the deferred channel receive; released
ones are finished. -/
structure PState where
  queued : Nat
  acquired : Nat
  dialing : Nat
  dialed : Nat
  released : Nat
deriving DecidableEq

/-- Occupancy of the buffered worker channel: a slot is held from the send
in the submission loop until the deferred receive at goroutine exit. -/
def PState.held (s : PState) : Nat :=
  s.acquired + s.dialing + s.dialed

/-- Interleaving semantics of main (main.go lines 81-97).  submit is the
blocking send on the capacity-cap buffered channel, enabled only while
fewer than cap slots are held; beginDial starts the goroutine body;
endDial completes net.DialTimeout; finish performs the reporting and the
deferred receive that frees the slot. -/
inductive PStep (cap : Nat) : PState → PState → Prop
  | submit (s : PState) (hq : 0 < s.queued) (hc : s.held < cap) :
      PStep cap s ⟨s.queued - 1, s.acquired + 1, s.dialing, s.dialed, s.released⟩
  | beginDial (s : PState) (h : 0 < s.acquired) :
      PStep cap s ⟨s.queued, s.acquired - 1, s.dialing + 1, s.dialed, s.released⟩
  | endDial (s : PState) (h : 0 < s.dialing) :
      PStep cap s ⟨s.queued, s.acquired, s.dialing - 1, s.dialed + 1, s.released⟩
  | finish (s : PState) (h : 0 < s.dialed) :
      PStep cap s ⟨s.queued, s.acquired, s.dialing, s.dialed - 1, s.released + 1⟩

/-- States reachable from an initial queue of n attempts with capacity cap. -/
def ReachableP (cap n : Nat) (s : PState) : Prop :=
  Relation.ReflTransGen (PStep cap) ⟨n, 0, 0, 0, 0⟩ s

/-! Helper lemmas about the decimal formatter. -/

lemma toDigitsAux_eq_spec :
    ∀ (fuel n : Nat) (acc : List Char), n < fuel →
      toDigitsAux fuel n acc = toDigitsSpec n ++ acc := by
  intro fuel
  induction fuel with
  | zero => intro n acc h; omega
  | succ fuel ih =>
    intro n acc h
    by_cases h10 : n < 10
    · rw [toDigitsSpec]
      simp only [toDigitsAux, if_pos h10, Nat.mod_eq_of_lt h10, List.singleton_append]
    · have hdiv : n / 10 < n := Nat.div_lt_self (by omega) (by omega)
      rw [toDigitsSpec]
      simp only [toDigitsAux, if_neg h10]
      rw [ih (n / 10) _ (by omega)]
      simp

lemma data_formatNat (n : Nat) : (formatNat n).data = toDigitsSpec n := by
  unfold formatNat
  rw [toDigitsAux_eq_spec (n + 1) n [] (by omega)]
  simp

lemma toNat_digitChar (d : Nat) (h : d < 10) : (Char.ofNat (48 + d)).toNat = 48 + d := by
  interval_cases d <;> decide

lemma digitsVal_append_singleton (l : List Char) (c : Char) :
    digitsVal (l ++ [c]) = digitsVal l * 10 + (c.toNat - 48) := by
  unfold digitsVal
  rw [List.foldl_append]
  rfl

lemma digitsVal_toDigitsSpec : ∀ n : Nat, digitsVal (toDigitsSpec n) = n := by
  intro n
  induction n using Nat.strong_induction_on with
  | _ n ih =>
    by_cases h10 : n < 10
    · rw [toDigitsSpec, if_pos h10]
      show digitsVal [Char.ofNat (48 + n)] = n
      unfold digitsVal
      simp [toNat_digitChar n h10]
    · have hdiv : n / 10 < n := Nat.div_lt_self (by omega) (by omega)
      rw [toDigitsSpec, if_neg h10, digitsVal_append_singleton, ih (n / 10) hdiv,
        toNat_digitChar (n % 10) (Nat.mod_lt n (by omega))]
      omega

lemma formatNat_injective : Function.Injective formatNat := by
  intro a b h
  have hd : toDigitsSpec a = toDigitsSpec b := by
    rw [← data_formatNat, ← data_formatNat, h]
  have hv := congrArg digitsVal hd
  rwa [digitsVal_toDigitsSpec, digitsVal_toDigitsSpec] at hv

/-! Helper lemmas about the expander. -/

lemma range_filter_pos :
    ∀ n : Nat, (List.range (n + 1)).filter (fun i => !decide (i = 0)) = List.range' 1 n := by
  intro n
  induction n with
  | zero => decide
  | succ n ih =>
    rw [List.range_succ (n + 1), List.filter_append, ih]
    have h1 : List.filter (fun i => !decide (i = 0)) [n + 1] = [n + 1] := by simp
    have h2 : List.range' 1 (n + 1) = List.range' 1 n ++ [1 + n] := by
      rw [List.range'_concat]
      norm_num
    rw [h1, h2]
    simp [Nat.add_comm]

lemma getPorts_range (r a b : String) (l e : Int)
    (hs : split '-' r = [a, b]) (ha : atoi a = some l) (hb : atoi b = some e)
    (h1 : 1 ≤ l) (h2 : l ≤ 65535) :
    getPorts r = some ((List.range' l.toNat (e - l + 1).toNat).map formatNat) := by
  have hg : ¬(l > (portRangeEnd : Int) ∨ l < 1) := by
    simp only [portRangeEnd]
    omega
  simp [getPorts, hs, List.headI, hb, ha, hg]

lemma getPorts_single (r : String) (p : Int)
    (hs : split '-' r = [r]) (hp : atoi r = some p) (h1 : 1 ≤ p) (h2 : p ≤ 65535) :
    getPorts r = some [r] := by
  have hg : ¬(p > (portRangeEnd : Int) ∨ p < 1) := by
    simp only [portRangeEnd]
    omega
  simp [getPorts, hs, List.headI, hp, hg]

lemma getAddresses_spec (host spec : String) :
    getAddresses ["portcheck", host, spec] =
      Except.ok ((split ',' spec).flatMap fun tok =>
        ((getPorts tok).getD []).map fun j => joinHostPort host j) := by
  unfold getAddresses
  norm_num
  refine List.flatMap_congr fun tok _ => ?_
  cases h : getPorts tok <;> simp [h]

lemma stdoutOf_attempt (a : String) (ok : Bool) (ce : Option String) :
    stdoutOf (attemptEvents a ok ce) = if ok then ["SUCCESS: " ++ a] else [] := by
  cases ok <;> cases ce <;> rfl

lemma stdoutOf_append (l1 l2 : List Event) :
    stdoutOf (l1 ++ l2) = stdoutOf l1 ++ stdoutOf l2 := by
  simp [stdoutOf]

lemma stdoutOf_runEvents (addrs : List String) (dialOk : String → Bool)
    (ceF : String → Option String) :
    stdoutOf (runEvents addrs dialOk ceF) = (addrs.filter dialOk).map fun a => "SUCCESS: " ++ a := by
  induction addrs with
  | nil => rfl
  | cons a t ih =>
    simp only [runEvents, List.flatMap_cons] at ih ⊢
    rw [stdoutOf_append, stdoutOf_attempt, ih]
    cases h : dialOk a <;> simp [h, List.filter_cons]

/-! The claim theorems. -/

/-- Claim C1 (code_bug evidence): with no port argument the expander of the
source produces exactly the endpoints for ports 1 through 65534 — 65534
endpoints in ascending order — and the endpoint for port 65535 is absent,
refuting the specified count of 65535 endpoints covering 1..65535. -/
theorem C1_full_scan_off_by_one :
    getAddresses ["portcheck", "h"] =
      Except.ok ((List.range' 1 65534).map fun i => joinHostPort "h" (formatNat i)) ∧
    ((List.range' 1 65534).map fun i => joinHostPort "h" (formatNat i)).length = 65534 ∧
    joinHostPort "h" (formatNat 65535) ∉
      (List.range' 1 65534).map fun i => joinHostPort "h" (formatNat i) := by
  refine ⟨?_, by simp, ?_⟩
  · unfold getAddresses
    norm_num [portRangeEnd]
    rw [show (65535 : Nat) = 65534 + 1 by norm_num, range_filter_pos]
  · intro hmem
    rw [List.mem_map] at hmem
    obtain ⟨i, hi, he⟩ := hmem
    rw [List.mem_range'_1] at hi
    have hj : ∀ x : String, joinHostPort "h" x = "h:" ++ x := fun x => rfl
    simp only [hj] at he
    have hd := congrArg String.data he
    simp only [String.data_append] at hd
    have hfn : formatNat i = formatNat 65535 := String.ext (List.append_cancel_left hd)
    have := formatNat_injective hfn
    omega

/-- Claim C2 (code_bug evidence): the source never range-checks the high
bound of a range token (main.go line 37 re-checks start), so the token
65535-65536 expands to the two ports 65535 and 65536 — including the
out-of-range 65536 — and 80-70000 expands to 69921 ports, while a high
bound that fails to parse (overflow) is still discarded. -/
theorem C2_range_end_not_validated :
    getPorts "65535-65536" = some ["65535", "65536"] ∧
    getPorts "80-99999999999999999999" = none ∧
    ((getPorts "80-70000").getD []).length = 69921 := by
  refine ⟨by decide, by decide, ?_⟩
  rw [getPorts_range "80-70000" "80" "70000" 80 70000 (by decide) (by decide) (by decide)
    (by decide) (by decide)]
  norm_num
  rfl

/-- Claim C3 as stated is false on the code: in the trace of a successful
attempt the slot release does not occur before the output side effects. -/
theorem C3_release_not_before_output :
    releasedBeforeAnyOutput (attemptEvents "127.0.0.1:80" true none) = false := by
  decide

/-- Claim C3, amended: the slot is released when the attempt goroutine
returns — the deferred channel receive is the final event of the attempt,
occurring exactly once, and for a successful attempt it never precedes the
output side effects. -/
theorem C3_release_at_goroutine_end (address : String) (dialOk : Bool) (ce : Option String) :
    (attemptEvents address dialOk ce).getLast? = some Event.release ∧
    (attemptEvents address dialOk ce).countP isRelease = 1 ∧
    releasedBeforeAnyOutput (attemptEvents address true ce) = false := by
  cases dialOk <;> cases ce <;> exact ⟨rfl, rfl, rfl⟩

/-- Claim C4: in every state reachable under the buffered-channel
semantics of the submission loop, the number of in-flight connection
attempts (and more generally the number of held slots) never exceeds the
capacity. -/
theorem C4_inflight_bounded (cap n : Nat) (s : PState) (h : ReachableP cap n s) :
    s.dialing ≤ cap ∧ s.held ≤ cap := by
  unfold ReachableP at h
  induction h with
  | refl => simp [PState.held]
  | tail hab hbc ih =>
    cases hbc with
    | submit hq hc => dsimp only [PState.held] at ih hc ⊢; omega
    | beginDial ht => dsimp only [PState.held] at ih ⊢; omega
    | endDial ht => dsimp only [PState.held] at ih ⊢; omega
    | finish ht => dsimp only [PState.held] at ih ⊢; omega

/-- Witness for C4 at capacity 1 with two queued attempts: after admitting
one attempt and starting its dial, the bound holds. -/
theorem C4_inflight_bounded_witness :
    (PState.mk 1 0 1 0 0).dialing ≤ 1 ∧ (PState.mk 1 0 1 0 0).held ≤ 1 :=
  C4_inflight_bounded 1 2 ⟨1, 0, 1, 0, 0⟩
    (Relation.ReflTransGen.tail
      (Relation.ReflTransGen.tail Relation.ReflTransGen.refl
        (PStep.submit ⟨2, 0, 0, 0, 0⟩ (by decide) (by decide)))
      (PStep.beginDial ⟨1, 1, 0, 0, 0⟩ (by decide)))

/-- Claim C5: a range token whose bounds are both valid ports but reversed
(low greater than high) expands to the empty list — a non-nil result, so no
error — contributing zero endpoints. -/
theorem C5_reversed_range_empty (r a b : String) (l e : Int)
    (hs : split '-' r = [a, b]) (ha : atoi a = some l) (hb : atoi b = some e)
    (h1 : 1 ≤ l) (h2 : l ≤ 65535) (hrev : e < l) :
    getPorts r = some [] := by
  rw [getPorts_range r a b l e hs ha hb h1 h2]
  have hc : (e - l + 1).toNat = 0 := by omega
  rw [hc, List.range'_zero]
  rfl

/-- Witness for C5 at the token 10-5 of the spec scenario. -/
theorem C5_reversed_range_empty_witness : getPorts "10-5" = some [] :=
  C5_reversed_range_empty "10-5" "10" "5" 10 5 (by decide) (by decide) (by decide)
    (by decide) (by decide) (by decide)

/-- Claim C6: a valid range token low-high expands to exactly
high - low + 1 port strings, the decimal forms of the consecutive integers
from low to high, pairwise distinct and ascending; in a comma-separated
specification the tokens are expanded left to right. -/
theorem C6_range_expansion (r a b : String) (l e : Int)
    (hs : split '-' r = [a, b]) (ha : atoi a = some l) (hb : atoi b = some e)
    (h1 : 1 ≤ l) (h2 : l ≤ e) (h3 : e ≤ 65535) :
    getPorts r = some ((List.range' l.toNat (e.toNat - l.toNat + 1)).map formatNat) ∧
    ((List.range' l.toNat (e.toNat - l.toNat + 1)).map formatNat).length =
      e.toNat - l.toNat + 1 ∧
    ((List.range' l.toNat (e.toNat - l.toNat + 1)).map formatNat).Nodup ∧
    (∀ p ∈ List.range' l.toNat (e.toNat - l.toNat + 1), l.toNat ≤ p ∧ p ≤ e.toNat) ∧
    List.Pairwise (· < ·) (List.range' l.toNat (e.toNat - l.toNat + 1)) ∧
    (∀ host spec, getAddresses ["portcheck", host, spec] =
      Except.ok ((split ',' spec).flatMap fun tok =>
        ((getPorts tok).getD []).map fun j => joinHostPort host j)) := by
  refine ⟨?_, by simp, ?_, ?_, ?_, fun host spec => getAddresses_spec host spec⟩
  · rw [getPorts_range r a b l e hs ha hb h1 (by omega)]
    have hc : (e - l + 1).toNat = e.toNat - l.toNat + 1 := by omega
    rw [hc]
  · exact (List.nodup_range' l.toNat (e.toNat - l.toNat + 1) 1 (by omega)).map
      formatNat_injective
  · intro p hp
    rw [List.mem_range'_1] at hp
    omega
  · exact List.pairwise_lt_range' l.toNat (e.toNat - l.toNat + 1)

/-- Witness for C6 at the token 8000-8002 of the spec scenario. -/
theorem C6_range_expansion_witness :
    getPorts "8000-8002" = some ["8000", "8001", "8002"] := by
  have h := C6_range_expansion "8000-8002" "8000" "8002" 8000 8002 (by decide) (by decide)
    (by decide) (by decide) (by decide) (by decide)
  rw [h.1]
  decide

/-- Claim C7: every malformed token — more than one separator, an unparsable
first bound (this covers the empty token and non-numeric tokens), or a
first bound outside 1..65535 such as 0 or 65536 — yields nil from getPorts,
and getAddresses still expands every sibling token of the comma-separated
specification independently. -/
theorem C7_malformed_tokens :
    (∀ r : String,
        ((split '-' r).length > 2 ∨
          atoi ((split '-' r).headI) = none ∨
          (∃ p : Int, atoi ((split '-' r).headI) = some p ∧ (p < 1 ∨ p > 65535))) →
        getPorts r = none) ∧
    (∀ host spec : String, getAddresses ["portcheck", host, spec] =
      Except.ok ((split ',' spec).flatMap fun tok =>
        ((getPorts tok).getD []).map fun j => joinHostPort host j)) := by
  refine ⟨?_, fun host spec => getAddresses_spec host spec⟩
  intro r hr
  rcases hr with hlen | hnone | ⟨p, hp, hbad⟩
  · cases hA : atoi ((split '-' r).headI) with
    | none => simp [getPorts, hA]
    | some q =>
      by_cases hq : q > (portRangeEnd : Int) ∨ q < 1
      · simp [getPorts, hA, hq]
      · have hne1 : ¬((split '-' r).length = 1) := by omega
        simp [getPorts, hA, hq, hne1, hlen]
  · simp [getPorts, hnone]
  · have hq : p > (portRangeEnd : Int) ∨ p < 1 := by
      simp only [portRangeEnd]
      omega
    simp [getPorts, hp, hq]

/-- Witness for C7 over the malformed tokens of the spec and a mixed
specification whose only valid sibling is still expanded. -/
theorem C7_malformed_tokens_witness :
    getPorts "1-2-3" = none ∧ getPorts "" = none ∧ getPorts "abc" = none ∧
    getPorts "0" = none ∧ getPorts "65536" = none ∧
    getAddresses ["portcheck", "h", ",abc,0,65536,1-2-3,80"] = Except.ok ["h:80"] :=
  ⟨C7_malformed_tokens.1 "1-2-3" (Or.inl (by decide)),
    C7_malformed_tokens.1 "" (Or.inr (Or.inl (by decide))),
    C7_malformed_tokens.1 "abc" (Or.inr (Or.inl (by decide))),
    C7_malformed_tokens.1 "0" (Or.inr (Or.inr ⟨0, by decide, Or.inl (by decide)⟩)),
    C7_malformed_tokens.1 "65536" (Or.inr (Or.inr ⟨65536, by decide, Or.inr (by decide)⟩)),
    by rw [C7_malformed_tokens.2]; exact congrArg Except.ok (by decide)⟩

/-- Claim C8: with fewer than two arguments the program terminates fatally
with the usage message, before any endpoint expansion or probing. -/
theorem C8_missing_host_fatal (args : List String) (h : args.length < 2) :
    getAddresses args = Except.error usageMsg ∧
    ∀ dialOk closeErr, runMain args dialOk closeErr = Except.error usageMsg := by
  have h1 : getAddresses args = Except.error usageMsg := by
    unfold getAddresses
    rw [if_pos h]
  exact ⟨h1, fun dialOk closeErr => by unfold runMain; rw [h1]; rfl⟩

/-- Witness for C8 with only the program name supplied. -/
theorem C8_missing_host_fatal_witness :
    getAddresses ["portcheck"] = Except.error usageMsg :=
  (C8_missing_host_fatal ["portcheck"] (by decide)).1

/-- Claim C9: a successful attempt writes exactly one SUCCESS line to
stdout and then closes the connection; a close error adds one stderr
diagnostic while the stdout line stands; a failed attempt writes nothing to
either stream; over a whole run, stdout holds exactly one SUCCESS line per
address whose dial succeeded. -/
theorem C9_output_per_attempt (address e : String) (ce : Option String)
    (addrs : List String) (dialOk : String → Bool) (ceF : String → Option String) :
    stdoutOf (attemptEvents address true ce) = ["SUCCESS: " ++ address] ∧
    (attemptEvents address true ce).take 3 =
      [Event.dial address, Event.stdoutLine ("SUCCESS: " ++ address), Event.closeConn] ∧
    stderrOf (attemptEvents address true (some e)) = ["error closing connection: " ++ e] ∧
    stderrOf (attemptEvents address true none) = [] ∧
    stdoutOf (attemptEvents address false ce) = [] ∧
    stderrOf (attemptEvents address false ce) = [] ∧
    stdoutOf (runEvents addrs dialOk ceF) = (addrs.filter dialOk).map fun a => "SUCCESS: " ++ a := by
  cases ce <;>
    exact ⟨rfl, rfl, rfl, rfl, rfl, rfl, stdoutOf_runEvents addrs dialOk ceF⟩

/-- Claim C10: a separator-free token that parses to a port in 1..65535 is
emitted verbatim — the original token text, not a reformatted integer —
while range tokens always emit the canonical decimal form of each port. -/
theorem C10_single_token_text (r : String) (p : Int)
    (hs : split '-' r = [r]) (hp : atoi r = some p) (h1 : 1 ≤ p) (h2 : p ≤ 65535) :
    getPorts r = some [r] ∧
    ∀ (q a b : String) (l e : Int), split '-' q = [a, b] → atoi a = some l →
      atoi b = some e → 1 ≤ l → l ≤ 65535 →
      getPorts q = some ((List.range' l.toNat (e - l + 1).toNat).map formatNat) :=
  ⟨getPorts_single r p hs hp h1 h2,
    fun q a b l e hs' ha' hb' h1' h2' => getPorts_range q a b l e hs' ha' hb' h1' h2'⟩

/-- Witness for C10: the token 0080 is emitted as 0080 and the token +80,
which Atoi accepts, is emitted as +80. -/
theorem C10_single_token_text_witness :
    getPorts "0080" = some ["0080"] ∧ getPorts "+80" = some ["+80"] :=
  ⟨(C10_single_token_text "0080" 80 (by decide) (by decide) (by decide) (by decide)).1,
    (C10_single_token_text "+80" 80 (by decide) (by decide) (by decide) (by decide)).1⟩

end Portcheck
